import Mathlib

/-
Verification of the distance-parsing core of the CVRPLIB repository
(`vrplib/parse/parse_distances.py`).

The Python module is shallowly embedded as follows.

* A numpy `n`-by-`n` matrix is a `List (List α)`; `np.zeros((n, n))` followed
  by a loop of index assignments is modelled by a function `Nat → Nat → α`
  built from pointwise updates (`updMat` / `assignSym`), materialised into the
  list-of-lists form by `toMatrix` when the function returns.
* `itertools.combinations(range(n), 2)` is `combinations2 n`: the pairs
  `(i, j)` with `i < j < n`, produced in lexicographic order exactly as the
  Python iterator produces them.
* A fallible indexed read (`seq[k]`, which raises `IndexError` when out of
  range) is an `Option`-valued lookup; a loop whose body performs such reads
  is split into a read phase (`readAssign`, which short-circuits on the first
  failing read exactly where the Python loop would raise) followed by the
  write phase (`assignSym`).  The values read never depend on the matrix being
  written, so the two-phase form is behaviour-equivalent to the Python loop.
* Python floats are modelled by exact real arithmetic: `np.linalg.norm` on a
  2-vector is `Real.sqrt` of the sum of squares, `np.floor` is `Int.floor`,
  and `np.round` (round-half-to-even) is `npRound`.
* `int(x ** 0.5)` on a nonnegative integer `x` is the integer square root; it
  is modelled by the structurally recursive `floorSqrt`, proved equal to
  `Nat.sqrt` below (`floorSqrt_eq_sqrt`).
* Each `raise ValueError(...)` site of `parse_distances` gets its own
  constructor of `ParseErr`; an `IndexError` escaping `from_lower_row` or
  `from_eilon` is `ParseErr.indexError`.
-/

/-- The error outcomes of `parse_distances`, one constructor per `raise` site
(plus `indexError` for an `IndexError` escaping a triangular expansion).
`unknownType`, `unknownFormat` and `unknownTypeOrFormat` are the spec's
`UnsupportedSpec`; `missingCoords` is the spec's `MissingInput`. -/
inductive ParseErr where
  | unknownType
  | missingCoords
  | unknownFormat
  | unknownTypeOrFormat
  | indexError
deriving DecidableEq, Repr

/-- Python's substring test `pat in s`. -/
def containsSubstr (s pat : String) : Bool :=
  (List.range (s.toList.length + 1)).any
    (fun k => ((s.toList.drop k).take pat.toList.length) == pat.toList)

/-- Python's `comment is not None and "Eilon" in comment`. -/
def isEilonComment (comment : Option String) : Bool :=
  match comment with
  | some c => containsSubstr c "Eilon"
  | none => false

/-- `itertools.combinations(range(n), 2)`: all pairs `(i, j)` with
`i < j < n`, in lexicographic order. -/
def combinations2 (n : Nat) : List (Nat × Nat) :=
  ((List.range n).map (fun i =>
    ((List.range n).filter (fun j => decide (i < j))).map (fun j => (i, j)))).flatten

/-- One numpy index assignment `M[i, j] = v`, on the functional view of the
matrix being built. -/
def updMat {α : Type} (M : Nat → Nat → α) (i j : Nat) (v : α) : Nat → Nat → α :=
  fun a b => if a = i ∧ b = j then v else M a b

/-- A loop performing `M[i, j] = v; M[j, i] = v` for each listed
`((i, j), v)`. -/
def assignSym {α : Type} (M : Nat → Nat → α) : List ((Nat × Nat) × α) → Nat → Nat → α
  | [] => M
  | e :: l => assignSym (updMat (updMat M e.1.1 e.1.2 e.2) e.1.2 e.1.1 e.2) l

/-- Materialise the functional view of an `n`-by-`n` matrix into the
list-of-lists form in which numpy arrays are embedded. -/
def toMatrix {α : Type} (n : Nat) (M : Nat → Nat → α) : List (List α) :=
  (List.range n).map (fun i => (List.range n).map (fun j => M i j))

/-- Read entry `(i, j)` of an embedded matrix (out-of-range reads default to
`0`; every use in the theorems below is in range). -/
def getM {α : Type} [Zero α] (M : List (List α)) (i j : Nat) : α :=
  (M.getD i []).getD j 0

/-- The read phase of a loop whose body performs fallible indexed reads:
produce the `((i, j), value)` assignment list, short-circuiting on the first
read that would raise `IndexError` in Python. -/
def readAssign {β α : Type} (f : β → Option ((Nat × Nat) × α)) :
    List β → Option (List ((Nat × Nat) × α))
  | [] => some []
  | b :: bs =>
    match f b with
    | none => none
    | some kv =>
      match readAssign f bs with
      | none => none
      | some l => some (kv :: l)

/-- Fuelled linear search for the integer square root (auxiliary for
`floorSqrt`). -/
def sqrtLoop (m : Nat) : Nat → Nat → Nat
  | 0, k => k
  | fuel + 1, k => if (k + 1) * (k + 1) ≤ m then sqrtLoop m fuel (k + 1) else k

/-- Python's `int(m ** 0.5)` on a nonnegative integer `m`: the integer square
root (proved equal to `Nat.sqrt` in `floorSqrt_eq_sqrt`). -/
def floorSqrt (m : Nat) : Nat := sqrtLoop m m 0

/-- Componentwise difference `coords[i] - coords[j]` of two 2-d points. -/
def sub2 (a b : ℝ × ℝ) : ℝ × ℝ := (a.1 - b.1, a.2 - b.2)

/-- `np.linalg.norm` of a 2-vector. -/
noncomputable def norm2 (v : ℝ × ℝ) : ℝ := Real.sqrt (v.1 ^ 2 + v.2 ^ 2)

/-- `pairwise_euclidean(coords)`: the `n`-by-`n` zero matrix with
`norm(coords[i] - coords[j])` assigned to `(i, j)` and `(j, i)` for each
`(i, j)` in `combinations(range(n), 2)`. -/
noncomputable def pairwise_euclidean (coords : List (ℝ × ℝ)) : List (List ℝ) :=
  let n := coords.length
  toMatrix n (assignSym (fun _ _ => 0)
    ((combinations2 n).map
      (fun p => (p, norm2 (sub2 (coords.getD p.1 (0, 0)) (coords.getD p.2 (0, 0)))))))

/-- The loop body of `from_lower_row`: for the pair `p = (j, i)` drawn from
`combinations(range(n), 2)`, read `t_ij = triangular[i - 1][j]` and record the
assignment of `t_ij` to `(i, j)` (mirrored to `(j, i)` by `assignSym`). -/
def lowerRowRead {α : Type} (triangular : List (List α)) (p : Nat × Nat) :
    Option ((Nat × Nat) × α) :=
  ((triangular[p.2 - 1]?).bind (fun row => row[p.1]?)).map (fun t => ((p.2, p.1), t))

/-- `from_lower_row(triangular)`: `n = len(triangular) + 1`; for each
`(j, i)` in `combinations(range(n), 2)` read `triangular[i - 1][j]` and
assign it to `(i, j)` and `(j, i)`.  `none` models an `IndexError` raised by
one of the reads. -/
def from_lower_row {α : Type} [Zero α] (triangular : List (List α)) :
    Option (List (List α)) :=
  let n := triangular.length + 1
  match readAssign (lowerRowRead triangular) (combinations2 n) with
  | none => none
  | some assigns => some (toMatrix n (assignSym (fun _ _ => 0) assigns))

/-- The loop body of `from_eilon`: for `(idx, (i, j))` drawn from
`enumerate(indices)`, read `d_ij = flattened[idx]` and record the assignment
of `d_ij` to `(i, j)` (mirrored to `(j, i)` by `assignSym`). -/
def eilonRead {α : Type} (flattened : List α) (e : Nat × (Nat × Nat)) :
    Option ((Nat × Nat) × α) :=
  (flattened[e.1]?).map (fun d => (e.2, d))

/-- `from_eilon(edge_weights)`: flatten row-major, derive
`n = int((2 * len(flattened)) ** 0.5) + 1`, and assign `flattened[idx]` to the
`idx`-th pair of `sorted(combinations(range(n), 2))`, mirrored.  The Python
`sorted` is the identity here because `combinations2 n` is already sorted
lexicographically (`combinations2_pairwise_lex` below), so it is dropped from
the embedding.  `none` models an `IndexError` raised by `flattened[idx]`. -/
def from_eilon {α : Type} [Zero α] (edge_weights : List (List α)) :
    Option (List (List α)) :=
  let flattened := edge_weights.flatten
  let n := floorSqrt (2 * flattened.length) + 1
  let indices := combinations2 n
  match readAssign (eilonRead flattened) indices.enum with
  | none => none
  | some assigns => some (toMatrix n (assignSym (fun _ _ => 0) assigns))

/-- `is_triangular_number(n)` (defined in the Python module but never
called by it). -/
def is_triangular_number (n : Nat) : Bool :=
  let i := floorSqrt (2 * n)
  i * (i + 1) == 2 * n

/-- Elementwise application of a scalar function to a matrix (`np.floor(M)`,
`np.round(M * 1000)`). -/
def matElt {α : Type} (f : α → α) (M : List (List α)) : List (List α) :=
  M.map (fun row => row.map f)

open Classical in
/-- `np.round` on a scalar: round half to even. -/
noncomputable def npRound (x : ℝ) : ℤ :=
  if Int.fract x = 1 / 2 then (if Even ⌊x⌋ then ⌊x⌋ else ⌊x⌋ + 1) else round x

/-- `parse_distances(data, edge_weight_type, edge_weight_format, node_coord,
comment)`. -/
noncomputable def parse_distances (data : List (List ℝ)) (edge_weight_type : String)
    (edge_weight_format : Option String) (node_coord : Option (List (ℝ × ℝ)))
    (comment : Option String) : Except ParseErr (List (List ℝ)) :=
  if edge_weight_type ∈ ["EUC_2D", "FLOOR_2D", "EXACT_2D", "EXPLICIT"] then
    if containsSubstr edge_weight_type "2D" then
      match node_coord with
      | none => Except.error ParseErr.missingCoords
      | some coords =>
        let distance := pairwise_euclidean coords
        if edge_weight_type = "EUC_2D" then Except.ok distance
        else if edge_weight_type = "FLOOR_2D" then
          Except.ok (matElt (fun x => ((⌊x⌋ : ℤ) : ℝ)) distance)
        else if edge_weight_type = "EXACT_2D" then
          Except.ok (matElt (fun x => ((npRound (x * 1000) : ℤ) : ℝ)) distance)
        else Except.error ParseErr.unknownTypeOrFormat
    else if edge_weight_type = "EXPLICIT" then
      if edge_weight_format ∈ [some "LOWER_ROW", some "FULL_MATRIX"] then
        if edge_weight_format = some "LOWER_ROW" then
          if isEilonComment comment then
            match from_eilon data with
            | some M => Except.ok M
            | none => Except.error ParseErr.indexError
          else
            match from_lower_row data with
            | some M => Except.ok M
            | none => Except.error ParseErr.indexError
        else if edge_weight_format = some "FULL_MATRIX" then Except.ok data
        else Except.error ParseErr.unknownTypeOrFormat
      else Except.error ParseErr.unknownFormat
    else Except.error ParseErr.unknownTypeOrFormat
  else Except.error ParseErr.unknownType

/-- Modelled from the spec: the dimension "the input coordinate /
compact-triangular data implies" for each accepted encoding; used only to
state the dimension clause of the invariant claim. -/
def specImpliedDim (data : List (List ℝ)) (edge_weight_type : String)
    (node_coord : Option (List (ℝ × ℝ))) (comment : Option String) : Nat :=
  if containsSubstr edge_weight_type "2D" then (node_coord.getD []).length
  else if isEilonComment comment then floorSqrt (2 * data.flatten.length) + 1
  else data.length + 1

/-! ### Basic facts about the building blocks -/

theorem sqrtLoop_eq (m : Nat) :
    ∀ (fuel k : Nat), k * k ≤ m → Nat.sqrt m ≤ k + fuel →
      sqrtLoop m fuel k = Nat.sqrt m := by
  intro fuel
  induction fuel with
  | zero =>
    intro k hk hf
    have h1 : k ≤ Nat.sqrt m := Nat.le_sqrt.2 hk
    simp only [sqrtLoop]
    omega
  | succ fuel ih =>
    intro k hk hf
    simp only [sqrtLoop]
    split_ifs with h
    · exact ih (k + 1) h (by omega)
    · have h1 : Nat.sqrt m < k + 1 := Nat.sqrt_lt.2 (by omega)
      have h2 : k ≤ Nat.sqrt m := Nat.le_sqrt.2 hk
      omega

/-- `floorSqrt` is the mathematical integer square root: the Python
floating-point `int(m ** 0.5)` is modelled exactly. -/
theorem floorSqrt_eq_sqrt (m : Nat) : floorSqrt m = Nat.sqrt m :=
  sqrtLoop_eq m m 0 (by simp) (by simpa using Nat.sqrt_le_self m)

theorem assignSym_apply_of_forall_not {α : Type} (l : List ((Nat × Nat) × α))
    (M : Nat → Nat → α) (p q : Nat)
    (h : ∀ e ∈ l, ¬ (e.1.1 = p ∧ e.1.2 = q) ∧ ¬ (e.1.1 = q ∧ e.1.2 = p)) :
    assignSym M l p q = M p q := by
  induction l generalizing M with
  | nil => rfl
  | cons e t ih =>
    have he := h e (List.mem_cons_self _ _)
    rw [assignSym, ih _ (fun x hx => h x (List.mem_cons_of_mem _ hx))]
    simp only [updMat]
    rw [if_neg (fun hc => he.2 ⟨hc.2.symm, hc.1.symm⟩),
        if_neg (fun hc => he.1 ⟨hc.1.symm, hc.2.symm⟩)]

theorem assignSym_apply_of_mem {α : Type} (l : List ((Nat × Nat) × α))
    (M : Nat → Nat → α) (i j : Nat) (v : α)
    (hpw : l.Pairwise (fun a b =>
      ¬ (b.1.1 = a.1.1 ∧ b.1.2 = a.1.2) ∧ ¬ (b.1.1 = a.1.2 ∧ b.1.2 = a.1.1)))
    (hmem : ((i, j), v) ∈ l) :
    assignSym M l i j = v ∧ assignSym M l j i = v := by
  induction l generalizing M with
  | nil => simp at hmem
  | cons e t ih =>
    rcases List.mem_cons.1 hmem with he | ht
    · obtain ⟨hhead, -⟩ := List.pairwise_cons.1 hpw
      subst he
      have hh : ∀ x ∈ t, ¬ (x.1.1 = i ∧ x.1.2 = j) ∧ ¬ (x.1.1 = j ∧ x.1.2 = i) :=
        fun x hx => hhead x hx
      constructor
      · rw [assignSym, assignSym_apply_of_forall_not t _ i j hh]
        simp [updMat]
      · rw [assignSym, assignSym_apply_of_forall_not t _ j i
          (fun x hx => ⟨(hh x hx).2, (hh x hx).1⟩)]
        simp [updMat]
    · rw [assignSym]
      exact ih _ (List.pairwise_cons.1 hpw).2 ht

theorem assignSym_symm_apply {α : Type} (l : List ((Nat × Nat) × α))
    (M : Nat → Nat → α) (h : ∀ a b, M a b = M b a) (a b : Nat) :
    assignSym M l a b = assignSym M l b a := by
  induction l generalizing M with
  | nil => exact h a b
  | cons e t ih =>
    rw [assignSym]
    apply ih
    intro x y
    simp only [updMat]
    split_ifs <;> first | rfl | exact h x y | tauto

theorem assignSym_diag {α : Type} (l : List ((Nat × Nat) × α)) (M : Nat → Nat → α)
    (h : ∀ e ∈ l, e.1.1 ≠ e.1.2) (i : Nat) : assignSym M l i i = M i i :=
  assignSym_apply_of_forall_not l M i i (fun e he =>
    ⟨fun hc => h e he (hc.1.trans hc.2.symm), fun hc => h e he (hc.1.trans hc.2.symm)⟩)

theorem toMatrix_length {α : Type} (n : Nat) (M : Nat → Nat → α) :
    (toMatrix n M).length = n := by simp [toMatrix]

theorem toMatrix_row_length {α : Type} (n : Nat) (M : Nat → Nat → α) :
    ∀ r ∈ toMatrix n M, r.length = n := by
  intro r hr
  simp only [toMatrix, List.mem_map, List.mem_range] at hr
  obtain ⟨i, -, rfl⟩ := hr
  simp

theorem getM_toMatrix {α : Type} [Zero α] (n : Nat) (M : Nat → Nat → α)
    (i j : Nat) (hi : i < n) (hj : j < n) : getM (toMatrix n M) i j = M i j := by
  simp [getM, toMatrix, List.getD_eq_getElem?_getD, List.getElem?_map,
        List.getElem?_range, hi, hj]

theorem getM_row_oob {α : Type} [Zero α] (M : List (List α)) (i j : Nat)
    (h : M.length ≤ i) : getM M i j = 0 := by
  simp [getM, List.getD_eq_getElem?_getD, List.getElem?_eq_none h]

theorem readAssign_cons {β α : Type} (f : β → Option ((Nat × Nat) × α)) (b : β)
    (bs : List β) (l : List ((Nat × Nat) × α)) :
    readAssign f (b :: bs) = some l ↔
      ∃ kv, f b = some kv ∧ ∃ t, readAssign f bs = some t ∧ l = kv :: t := by
  simp only [readAssign]
  cases hf : f b with
  | none => simp
  | some kv =>
    cases hr : readAssign f bs with
    | none => simp
    | some t =>
      simp only [Option.some.injEq]
      constructor
      · rintro rfl; exact ⟨kv, rfl, t, rfl, rfl⟩
      · rintro ⟨kv', hkv, t', ht, rfl⟩
        obtain rfl : kv = kv' := hkv
        obtain rfl : t = t' := ht
        rfl

theorem readAssign_get {β α : Type} (f : β → Option ((Nat × Nat) × α)) :
    ∀ (bs : List β) (l : List ((Nat × Nat) × α)), readAssign f bs = some l →
      l.length = bs.length ∧
      ∀ k (hk : k < bs.length) (hk2 : k < l.length),
        f (bs.get ⟨k, hk⟩) = some (l.get ⟨k, hk2⟩) := by
  intro bs
  induction bs with
  | nil =>
    intro l h
    simp only [readAssign, Option.some.injEq] at h
    subst h
    exact ⟨rfl, fun k hk => by simp at hk⟩
  | cons b bs ih =>
    intro l h
    obtain ⟨kv, hkv, t, ht, rfl⟩ := (readAssign_cons f b bs l).1 h
    obtain ⟨hlen, hpos⟩ := ih t ht
    refine ⟨by simp [hlen], ?_⟩
    intro k hk hk2
    cases k with
    | zero => simpa using hkv
    | succ k => exact hpos k (by simpa using hk) (by simpa using hk2)

theorem readAssign_mem {β α : Type} (f : β → Option ((Nat × Nat) × α))
    (bs : List β) (l : List ((Nat × Nat) × α)) (h : readAssign f bs = some l) :
    ∀ e ∈ l, ∃ b ∈ bs, f b = some e := by
  intro e he
  obtain ⟨⟨k, hk⟩, rfl⟩ := List.mem_iff_get.1 he
  obtain ⟨hlen, hpos⟩ := readAssign_get f bs l h
  have hkb : k < bs.length := hlen ▸ hk
  exact ⟨bs.get ⟨k, hkb⟩, List.get_mem bs k hkb, hpos k hkb hk⟩

theorem readAssign_isSome {β α : Type} (f : β → Option ((Nat × Nat) × α)) :
    ∀ bs : List β, (∀ b ∈ bs, (f b).isSome) → ∃ l, readAssign f bs = some l := by
  intro bs
  induction bs with
  | nil => exact fun _ => ⟨[], rfl⟩
  | cons b bs ih =>
    intro h
    obtain ⟨kv, hkv⟩ := Option.isSome_iff_exists.1 (h b (List.mem_cons_self _ _))
    obtain ⟨t, ht⟩ := ih (fun x hx => h x (List.mem_cons_of_mem _ hx))
    exact ⟨kv :: t, (readAssign_cons f b bs _).2 ⟨kv, hkv, t, ht, rfl⟩⟩

theorem readAssign_eq_none {β α : Type} (f : β → Option ((Nat × Nat) × α)) :
    ∀ bs : List β, (∃ b ∈ bs, f b = none) → readAssign f bs = none := by
  intro bs
  induction bs with
  | nil => rintro ⟨b, hb, -⟩; simp at hb
  | cons b bs ih =>
    rintro ⟨x, hx, hfx⟩
    rcases List.mem_cons.1 hx with rfl | hx'
    · simp [readAssign, hfx]
    · simp only [readAssign]
      rw [ih ⟨x, hx', hfx⟩]
      cases f b <;> rfl

theorem readAssign_pairwise {β α : Type} (f : β → Option ((Nat × Nat) × α))
    {R : β → β → Prop} {S : (Nat × Nat) × α → (Nat × Nat) × α → Prop} :
    ∀ (bs : List β) (l : List ((Nat × Nat) × α)), readAssign f bs = some l →
      bs.Pairwise R →
      (∀ a b x y, R a b → f a = some x → f b = some y → S x y) →
      l.Pairwise S := by
  intro bs
  induction bs with
  | nil =>
    intro l h _ _
    simp only [readAssign, Option.some.injEq] at h
    subst h; exact List.Pairwise.nil
  | cons b bs ih =>
    intro l h hpw htr
    obtain ⟨kv, hkv, t, ht, rfl⟩ := (readAssign_cons f b bs l).1 h
    obtain ⟨hhead, htail⟩ := List.pairwise_cons.1 hpw
    refine List.Pairwise.cons ?_ (ih t ht htail htr)
    intro e he
    obtain ⟨x, hxmem, hfx⟩ := readAssign_mem f bs t ht e he
    exact htr b x kv e (hhead x hxmem) hkv hfx

/-! ### Facts about `combinations2` and `enum` -/

theorem mem_combinations2 {n : Nat} {p : Nat × Nat} :
    p ∈ combinations2 n ↔ p.1 < p.2 ∧ p.2 < n := by
  obtain ⟨i, j⟩ := p
  simp only [combinations2, List.mem_flatten, List.mem_map, List.mem_filter,
             List.mem_range, decide_eq_true_eq, Prod.mk.injEq]
  constructor
  · rintro ⟨l, ⟨a, ha, rfl⟩, hm⟩
    simp only [List.mem_map, List.mem_filter, List.mem_range, decide_eq_true_eq,
               Prod.mk.injEq] at hm
    obtain ⟨b, ⟨hb, hab⟩, rfl, rfl⟩ := hm
    exact ⟨hab, hb⟩
  · rintro ⟨hij, hj⟩
    refine ⟨_, ⟨i, lt_trans hij hj, rfl⟩, ?_⟩
    simp [List.mem_map, List.mem_filter, List.mem_range, hij, hj]

theorem combinations2_pairwise_lex (n : Nat) :
    (combinations2 n).Pairwise (fun a b => a.1 < b.1 ∨ (a.1 = b.1 ∧ a.2 < b.2)) := by
  rw [combinations2, List.pairwise_flatten]
  constructor
  · intro l hl
    simp only [List.mem_map, List.mem_range] at hl
    obtain ⟨i, -, rfl⟩ := hl
    exact (((List.pairwise_lt_range n).sublist (List.filter_sublist _)).map _
      (fun a b hab => Or.inr ⟨rfl, hab⟩))
  · refine (List.pairwise_lt_range n).map _ ?_
    intro a b hab x hx y hy
    simp only [List.mem_map, List.mem_filter, List.mem_range] at hx hy
    obtain ⟨jx, -, rfl⟩ := hx
    obtain ⟨jy, -, rfl⟩ := hy
    exact Or.inl hab

theorem combinations2_pairwise_keys (n : Nat) :
    (combinations2 n).Pairwise (fun a b =>
      ¬ (b.1 = a.1 ∧ b.2 = a.2) ∧ ¬ (b.1 = a.2 ∧ b.2 = a.1)) := by
  refine (combinations2_pairwise_lex n).imp_of_mem ?_
  intro a b ha hb hlex
  have ha' : a.1 < a.2 := (mem_combinations2.1 ha).1
  have hb' : b.1 < b.2 := (mem_combinations2.1 hb).1
  constructor
  · rintro ⟨h1, h2⟩
    rcases hlex with h | ⟨he, hlt⟩ <;> omega
  · rintro ⟨h1, h2⟩
    omega

theorem enum_pairwise {α : Type} {R : α → α → Prop} {l : List α} (h : l.Pairwise R) :
    l.enum.Pairwise (fun a b => R a.2 b.2) := by
  rw [List.pairwise_iff_get] at h ⊢
  intro i j hij
  have hi : (i : Nat) < l.length := by
    have := i.2; simpa [List.enum_length] using this
  have hj : (j : Nat) < l.length := by
    have := j.2; simpa [List.enum_length] using this
  simp only [List.get_eq_getElem, List.getElem_enum]
  exact h ⟨i, hi⟩ ⟨j, hj⟩ hij

theorem enum_mem_spec {α : Type} {l : List α} {b : Nat × α} (hb : b ∈ l.enum) :
    ∃ h : b.1 < l.length, l.get ⟨b.1, h⟩ = b.2 := by
  obtain ⟨⟨k, hk⟩, hget⟩ := List.mem_iff_get.1 hb
  have hk' : k < l.length := by simpa [List.enum_length] using hk
  rw [List.get_eq_getElem, List.getElem_enum] at hget
  subst hget
  exact ⟨hk', rfl⟩

theorem enum_get {α : Type} (l : List α) (k : Nat) (hk : k < l.enum.length) :
    l.enum.get ⟨k, hk⟩ = (k, l.get ⟨k, by simpa [List.enum_length] using hk⟩) := by
  simp [List.get_eq_getElem, List.getElem_enum]

/-! ### Elementwise postprocessing and rounding -/

theorem matElt_length {α : Type} (f : α → α) (M : List (List α)) :
    (matElt f M).length = M.length := by simp [matElt]

theorem getM_matElt {α : Type} [Zero α] (f : α → α) (M : List (List α)) (i j : Nat)
    (hi : i < M.length) (hj : j < (M.getD i []).length) :
    getM (matElt f M) i j = f (getM M i j) := by
  have hrow : M.getD i [] = M[i] := by
    rw [List.getD_eq_getElem?_getD, List.getElem?_eq_getElem hi]
    rfl
  rw [hrow] at hj
  simp [getM, matElt, List.getD_eq_getElem?_getD, List.getElem?_map,
        List.getElem?_eq_getElem hi, List.getElem?_eq_getElem hj]

theorem npRound_zero : npRound 0 = 0 := by
  have h : Int.fract (0 : ℝ) ≠ 1 / 2 := by
    rw [Int.fract_zero]; norm_num
  simp [npRound, h]

/-! ### Generic list-indexing helpers -/

theorem getD_eq_get {α : Type} (l : List α) (d : α) {i : Nat} (h : i < l.length) :
    l.getD i d = l.get ⟨i, h⟩ := by
  simp [List.getD_eq_getElem?_getD, List.getElem?_eq_getElem h, List.get_eq_getElem]

theorem nested_read_eq {α : Type} [Zero α] (t : List (List α)) {i j : Nat}
    (hi : i < t.length) (hj : j < (t.getD i []).length) :
    (t[i]?).bind (fun row => row[j]?) = some ((t.getD i []).getD j 0) := by
  have hrow : t.getD i [] = t[i] := by
    rw [List.getD_eq_getElem?_getD, List.getElem?_eq_getElem hi]
    rfl
  rw [hrow] at hj
  rw [List.getElem?_eq_getElem hi, Option.some_bind, List.getElem?_eq_getElem hj,
      hrow, List.getD_eq_getElem?_getD, List.getElem?_eq_getElem hj]
  rfl

theorem readAssign_image {β α : Type} (f : β → Option ((Nat × Nat) × α)) :
    ∀ (bs : List β) (l : List ((Nat × Nat) × α)), readAssign f bs = some l →
      ∀ b ∈ bs, ∀ kv, f b = some kv → kv ∈ l := by
  intro bs
  induction bs with
  | nil => intro l h b hb; simp at hb
  | cons x bs ih =>
    intro l h b hb kv hkv
    obtain ⟨kv', hkv', t, ht, rfl⟩ := (readAssign_cons f x bs l).1 h
    rcases List.mem_cons.1 hb with rfl | hb'
    · rw [hkv] at hkv'
      obtain rfl := Option.some.inj hkv'
      exact List.mem_cons_self _ _
    · exact List.mem_cons_of_mem _ (ih t ht b hb' kv hkv)

/-! ### Characterisation of `pairwise_euclidean` -/

theorem pairwise_euclidean_def (coords : List (ℝ × ℝ)) :
    pairwise_euclidean coords =
      toMatrix coords.length (assignSym (fun _ _ => 0)
        ((combinations2 coords.length).map
          (fun p => (p, norm2 (sub2 (coords.getD p.1 (0, 0)) (coords.getD p.2 (0, 0))))))) :=
  rfl

theorem map_pairwise_keys {α : Type} (n : Nat) (val : Nat × Nat → α) :
    ((combinations2 n).map (fun p => (p, val p))).Pairwise (fun a b =>
      ¬ (b.1.1 = a.1.1 ∧ b.1.2 = a.1.2) ∧ ¬ (b.1.1 = a.1.2 ∧ b.1.2 = a.1.1)) :=
  (combinations2_pairwise_keys n).map _ (fun _ _ h => h)

theorem pairwise_euclidean_entry (coords : List (ℝ × ℝ)) {i j : Nat}
    (hij : i < j) (hj : j < coords.length) :
    getM (pairwise_euclidean coords) i j
        = norm2 (sub2 (coords.getD i (0, 0)) (coords.getD j (0, 0))) ∧
    getM (pairwise_euclidean coords) j i
        = norm2 (sub2 (coords.getD i (0, 0)) (coords.getD j (0, 0))) := by
  have hi : i < coords.length := lt_trans hij hj
  have hmem : ((i, j), norm2 (sub2 (coords.getD i (0, 0)) (coords.getD j (0, 0)))) ∈
      (combinations2 coords.length).map
        (fun p => (p, norm2 (sub2 (coords.getD p.1 (0, 0)) (coords.getD p.2 (0, 0))))) :=
    List.mem_map.2 ⟨(i, j), mem_combinations2.2 ⟨hij, hj⟩, rfl⟩
  have h := assignSym_apply_of_mem _ (fun _ _ => (0 : ℝ)) i j _
    (map_pairwise_keys coords.length _) hmem
  rw [pairwise_euclidean_def]
  exact ⟨by rw [getM_toMatrix _ _ _ _ hi hj]; exact h.1,
         by rw [getM_toMatrix _ _ _ _ hj hi]; exact h.2⟩

theorem pairwise_euclidean_diag (coords : List (ℝ × ℝ)) (i : Nat) :
    getM (pairwise_euclidean coords) i i = 0 := by
  rw [pairwise_euclidean_def]
  by_cases hi : i < coords.length
  · have hkeys : ∀ e ∈ (combinations2 coords.length).map
        (fun p => (p, norm2 (sub2 (coords.getD p.1 (0, 0)) (coords.getD p.2 (0, 0))))),
        e.1.1 ≠ e.1.2 := by
      intro e he
      obtain ⟨p, hp, rfl⟩ := List.mem_map.1 he
      exact Nat.ne_of_lt (mem_combinations2.1 hp).1
    rw [getM_toMatrix _ _ _ _ hi hi, assignSym_diag _ _ hkeys]
  · exact getM_row_oob _ _ _ (by rw [toMatrix_length]; omega)

theorem pairwise_euclidean_symm (coords : List (ℝ × ℝ)) (i j : Nat)
    (hi : i < coords.length) (hj : j < coords.length) :
    getM (pairwise_euclidean coords) i j = getM (pairwise_euclidean coords) j i := by
  rw [pairwise_euclidean_def, getM_toMatrix _ _ _ _ hi hj, getM_toMatrix _ _ _ _ hj hi]
  exact assignSym_symm_apply _ (fun _ _ => (0 : ℝ)) (fun _ _ => rfl) i j

/-! ### Characterisation of `from_lower_row` -/

theorem from_lower_row_def {α : Type} [Zero α] (t : List (List α)) :
    from_lower_row t =
      match readAssign (lowerRowRead t) (combinations2 (t.length + 1)) with
      | none => none
      | some assigns => some (toMatrix (t.length + 1) (assignSym (fun _ _ => 0) assigns)) :=
  rfl

theorem lowerRowRead_key {α : Type} (t : List (List α)) (p : Nat × Nat)
    (x : (Nat × Nat) × α) (h : lowerRowRead t p = some x) : x.1 = (p.2, p.1) := by
  simp only [lowerRowRead, Option.map_eq_some'] at h
  obtain ⟨v, -, rfl⟩ := h
  rfl

theorem from_lower_row_invariants {α : Type} [Zero α] {t M : List (List α)}
    (h : from_lower_row t = some M) :
    M.length = t.length + 1 ∧ (∀ r ∈ M, r.length = t.length + 1) ∧
    (∀ i j, i < t.length + 1 → j < t.length + 1 → getM M i j = getM M j i) ∧
    (∀ i, getM M i i = 0) := by
  rw [from_lower_row_def] at h
  cases hra : readAssign (lowerRowRead t) (combinations2 (t.length + 1)) with
  | none => rw [hra] at h; exact absurd h (by simp)
  | some assigns =>
    rw [hra] at h
    obtain rfl := (Option.some.inj h).symm
    have hkeys : ∀ e ∈ assigns, e.1.1 ≠ e.1.2 := by
      intro e he
      obtain ⟨p, hp, hfp⟩ := readAssign_mem _ _ _ hra e he
      rw [lowerRowRead_key t p e hfp]
      exact (Nat.ne_of_lt (mem_combinations2.1 hp).1).symm
    refine ⟨toMatrix_length _ _, toMatrix_row_length _ _, ?_, ?_⟩
    · intro i j hi hj
      rw [getM_toMatrix _ _ _ _ hi hj, getM_toMatrix _ _ _ _ hj hi]
      exact assignSym_symm_apply _ (fun _ _ => (0 : α)) (fun _ _ => rfl) i j
    · intro i
      by_cases hi : i < t.length + 1
      · rw [getM_toMatrix _ _ _ _ hi hi, assignSym_diag _ _ hkeys]
      · exact getM_row_oob _ _ _ (by rw [toMatrix_length]; omega)

theorem from_lower_row_some {α : Type} [Zero α] (t : List (List α))
    (hshape : ∀ m, m < t.length → m + 1 ≤ (t.getD m []).length) :
    ∃ M, from_lower_row t = some M ∧
      ∀ i j, j < i → i < t.length + 1 →
        getM M i j = (t.getD (i - 1) []).getD j 0 ∧
        getM M j i = (t.getD (i - 1) []).getD j 0 := by
  have hreads : ∀ p ∈ combinations2 (t.length + 1), (lowerRowRead t p).isSome := by
    intro p hp
    obtain ⟨h1, h2⟩ := mem_combinations2.1 hp
    have hrow : p.2 - 1 < t.length := by omega
    have hrl : p.1 < (t.getD (p.2 - 1) []).length := by
      have := hshape (p.2 - 1) hrow; omega
    simp only [lowerRowRead, nested_read_eq t hrow hrl, Option.map_some']
    rfl
  obtain ⟨assigns, hra⟩ := readAssign_isSome _ _ hreads
  refine ⟨toMatrix (t.length + 1) (assignSym (fun _ _ => 0) assigns), ?_, ?_⟩
  · rw [from_lower_row_def, hra]
  · intro i j hji hi
    have hpmem : (j, i) ∈ combinations2 (t.length + 1) := mem_combinations2.2 ⟨hji, hi⟩
    have hrow : i - 1 < t.length := by omega
    have hrl : j < (t.getD (i - 1) []).length := by
      have := hshape (i - 1) hrow; omega
    have hread : lowerRowRead t (j, i) = some ((i, j), (t.getD (i - 1) []).getD j 0) := by
      simp only [lowerRowRead, nested_read_eq t hrow hrl, Option.map_some']
    have hmem := readAssign_image _ _ _ hra (j, i) hpmem _ hread
    have hpw : assigns.Pairwise (fun a b =>
        ¬ (b.1.1 = a.1.1 ∧ b.1.2 = a.1.2) ∧ ¬ (b.1.1 = a.1.2 ∧ b.1.2 = a.1.1)) := by
      refine readAssign_pairwise _ _ _ hra (combinations2_pairwise_keys _) ?_
      intro a b x y hR hx hy
      rw [lowerRowRead_key t a x hx, lowerRowRead_key t b y hy]
      exact ⟨fun hc => hR.1 ⟨hc.2, hc.1⟩, fun hc => hR.2 ⟨hc.2, hc.1⟩⟩
    have h := assignSym_apply_of_mem assigns (fun _ _ => (0 : α)) i j _ hpw hmem
    exact ⟨by rw [getM_toMatrix _ _ _ _ (by omega) (by omega)]; exact h.1,
           by rw [getM_toMatrix _ _ _ _ (by omega) (by omega)]; exact h.2⟩

/-! ### Characterisation of `from_eilon` -/

theorem from_eilon_def {α : Type} [Zero α] (ew : List (List α)) :
    from_eilon ew =
      match readAssign (eilonRead ew.flatten)
          (combinations2 (floorSqrt (2 * ew.flatten.length) + 1)).enum with
      | none => none
      | some assigns =>
        some (toMatrix (floorSqrt (2 * ew.flatten.length) + 1)
          (assignSym (fun _ _ => 0) assigns)) :=
  rfl

theorem eilonRead_key {α : Type} (fl : List α) (e : Nat × (Nat × Nat))
    (x : (Nat × Nat) × α) (h : eilonRead fl e = some x) : x.1 = e.2 := by
  simp only [eilonRead, Option.map_eq_some'] at h
  obtain ⟨v, -, rfl⟩ := h
  rfl

theorem from_eilon_invariants {α : Type} [Zero α] {ew M : List (List α)}
    (h : from_eilon ew = some M) :
    M.length = floorSqrt (2 * ew.flatten.length) + 1 ∧
    (∀ r ∈ M, r.length = floorSqrt (2 * ew.flatten.length) + 1) ∧
    (∀ i j, i < floorSqrt (2 * ew.flatten.length) + 1 →
      j < floorSqrt (2 * ew.flatten.length) + 1 → getM M i j = getM M j i) ∧
    (∀ i, getM M i i = 0) := by
  rw [from_eilon_def] at h
  cases hra : readAssign (eilonRead ew.flatten)
      (combinations2 (floorSqrt (2 * ew.flatten.length) + 1)).enum with
  | none => rw [hra] at h; exact absurd h (by simp)
  | some assigns =>
    rw [hra] at h
    obtain rfl := (Option.some.inj h).symm
    have hkeys : ∀ e ∈ assigns, e.1.1 ≠ e.1.2 := by
      intro e he
      obtain ⟨b, hb, hfb⟩ := readAssign_mem _ _ _ hra e he
      obtain ⟨hb1, hb2⟩ := enum_mem_spec hb
      have hmem2 : b.2 ∈ combinations2 (floorSqrt (2 * ew.flatten.length) + 1) :=
        hb2 ▸ List.get_mem _ b.1 hb1
      rw [eilonRead_key _ b e hfb]
      exact Nat.ne_of_lt (mem_combinations2.1 hmem2).1
    refine ⟨toMatrix_length _ _, toMatrix_row_length _ _, ?_, ?_⟩
    · intro i j hi hj
      rw [getM_toMatrix _ _ _ _ hi hj, getM_toMatrix _ _ _ _ hj hi]
      exact assignSym_symm_apply _ (fun _ _ => (0 : α)) (fun _ _ => rfl) i j
    · intro i
      by_cases hi : i < floorSqrt (2 * ew.flatten.length) + 1
      · rw [getM_toMatrix _ _ _ _ hi hi, assignSym_diag _ _ hkeys]
      · exact getM_row_oob _ _ _ (by rw [toMatrix_length]; omega)

theorem from_eilon_some {α : Type} [Zero α] (ew : List (List α))
    (hlen : (combinations2 (floorSqrt (2 * ew.flatten.length) + 1)).length ≤
      ew.flatten.length) :
    ∃ M, from_eilon ew = some M ∧
      ∀ k (hk : k < (combinations2 (floorSqrt (2 * ew.flatten.length) + 1)).length),
        getM M ((combinations2 (floorSqrt (2 * ew.flatten.length) + 1)).get ⟨k, hk⟩).1
             ((combinations2 (floorSqrt (2 * ew.flatten.length) + 1)).get ⟨k, hk⟩).2
          = ew.flatten.getD k 0 ∧
        getM M ((combinations2 (floorSqrt (2 * ew.flatten.length) + 1)).get ⟨k, hk⟩).2
             ((combinations2 (floorSqrt (2 * ew.flatten.length) + 1)).get ⟨k, hk⟩).1
          = ew.flatten.getD k 0 := by
  have hreads : ∀ b ∈ (combinations2 (floorSqrt (2 * ew.flatten.length) + 1)).enum,
      (eilonRead ew.flatten b).isSome := by
    intro b hb
    obtain ⟨hb1, -⟩ := enum_mem_spec hb
    have hbL : b.1 < ew.flatten.length := lt_of_lt_of_le hb1 hlen
    simp only [eilonRead, List.getElem?_eq_getElem hbL, Option.map_some']
    rfl
  obtain ⟨assigns, hra⟩ := readAssign_isSome _ _ hreads
  have hpw : assigns.Pairwise (fun a b =>
      ¬ (b.1.1 = a.1.1 ∧ b.1.2 = a.1.2) ∧ ¬ (b.1.1 = a.1.2 ∧ b.1.2 = a.1.1)) := by
    refine readAssign_pairwise _ _ _ hra
      (enum_pairwise (combinations2_pairwise_keys _)) ?_
    intro a b x y hR hx hy
    rw [eilonRead_key _ a x hx, eilonRead_key _ b y hy]
    exact hR
  refine ⟨toMatrix (floorSqrt (2 * ew.flatten.length) + 1)
    (assignSym (fun _ _ => 0) assigns), ?_, ?_⟩
  · rw [from_eilon_def, hra]
  · intro k hk
    obtain ⟨hlen2, hpos⟩ := readAssign_get _ _ _ hra
    have hkE : k < (combinations2 (floorSqrt (2 * ew.flatten.length) + 1)).enum.length := by
      rw [List.enum_length]; exact hk
    have hkA : k < assigns.length := by rw [hlen2, List.enum_length]; exact hk
    have hkL : k < ew.flatten.length := lt_of_lt_of_le hk hlen
    have hval := hpos k hkE hkA
    rw [enum_get _ k hkE] at hval
    have hread : eilonRead ew.flatten
        (k, (combinations2 (floorSqrt (2 * ew.flatten.length) + 1)).get ⟨k, hk⟩) =
        some ((combinations2 (floorSqrt (2 * ew.flatten.length) + 1)).get ⟨k, hk⟩,
          ew.flatten.getD k 0) := by
      simp only [eilonRead, List.getElem?_eq_getElem hkL, Option.map_some']
      rw [getD_eq_get ew.flatten 0 hkL]
      rfl
    rw [hread] at hval
    have hmem : ((combinations2 (floorSqrt (2 * ew.flatten.length) + 1)).get ⟨k, hk⟩,
        ew.flatten.getD k 0) ∈ assigns := by
      rw [Option.some.inj hval]
      exact List.get_mem _ k hkA
    have hp := mem_combinations2.1 (List.get_mem
      (combinations2 (floorSqrt (2 * ew.flatten.length) + 1)) k hk)
    have h := assignSym_apply_of_mem assigns (fun _ _ => (0 : α))
      ((combinations2 (floorSqrt (2 * ew.flatten.length) + 1)).get ⟨k, hk⟩).1
      ((combinations2 (floorSqrt (2 * ew.flatten.length) + 1)).get ⟨k, hk⟩).2
      _ hpw hmem
    exact ⟨by rw [getM_toMatrix _ _ _ _ (by omega) (by omega)]; exact h.1,
           by rw [getM_toMatrix _ _ _ _ (by omega) (by omega)]; exact h.2⟩

theorem from_eilon_none {α : Type} [Zero α] (ew : List (List α))
    (hlen : ew.flatten.length <
      (combinations2 (floorSqrt (2 * ew.flatten.length) + 1)).length) :
    from_eilon ew = none := by
  have hL : ew.flatten.length <
      (combinations2 (floorSqrt (2 * ew.flatten.length) + 1)).enum.length := by
    rw [List.enum_length]; exact hlen
  have hfail : eilonRead ew.flatten
      ((combinations2 (floorSqrt (2 * ew.flatten.length) + 1)).enum.get
        ⟨ew.flatten.length, hL⟩) = none := by
    rw [enum_get _ _ hL]
    simp [eilonRead, List.getElem?_eq_none (le_refl ew.flatten.length)]
  have hnone := readAssign_eq_none (eilonRead ew.flatten) _
    ⟨_, List.get_mem _ ew.flatten.length hL, hfail⟩
  rw [from_eilon_def, hnone]

/-! ### Dispatch behaviour of `parse_distances` -/

theorem parse_distances_euc (data : List (List ℝ)) (fmt : Option String)
    (nc : Option (List (ℝ × ℝ))) (c : Option String) :
    parse_distances data "EUC_2D" fmt nc c =
      match nc with
      | none => Except.error ParseErr.missingCoords
      | some coords => Except.ok (pairwise_euclidean coords) := by
  cases nc <;> rfl

theorem parse_distances_floor (data : List (List ℝ)) (fmt : Option String)
    (nc : Option (List (ℝ × ℝ))) (c : Option String) :
    parse_distances data "FLOOR_2D" fmt nc c =
      match nc with
      | none => Except.error ParseErr.missingCoords
      | some coords =>
        Except.ok (matElt (fun x => ((⌊x⌋ : ℤ) : ℝ)) (pairwise_euclidean coords)) := by
  cases nc <;> rfl

theorem parse_distances_exact (data : List (List ℝ)) (fmt : Option String)
    (nc : Option (List (ℝ × ℝ))) (c : Option String) :
    parse_distances data "EXACT_2D" fmt nc c =
      match nc with
      | none => Except.error ParseErr.missingCoords
      | some coords =>
        Except.ok (matElt (fun x => ((npRound (x * 1000) : ℤ) : ℝ))
          (pairwise_euclidean coords)) := by
  cases nc <;> rfl

theorem parse_distances_explicit (data : List (List ℝ)) (fmt : Option String)
    (nc : Option (List (ℝ × ℝ))) (c : Option String) :
    parse_distances data "EXPLICIT" fmt nc c =
      if fmt = some "LOWER_ROW" then
        (if isEilonComment c then
          match from_eilon data with
          | some M => Except.ok M
          | none => Except.error ParseErr.indexError
        else
          match from_lower_row data with
          | some M => Except.ok M
          | none => Except.error ParseErr.indexError)
      else if fmt = some "FULL_MATRIX" then Except.ok data
      else Except.error ParseErr.unknownFormat := by
  by_cases h1 : fmt = some "LOWER_ROW"
  · subst h1; rfl
  · by_cases h2 : fmt = some "FULL_MATRIX"
    · subst h2; rfl
    · rw [if_neg h1, if_neg h2]
      simp only [parse_distances, if_true]
      rw [if_neg (by simp [h1, h2] : ¬ (fmt ∈ [some "LOWER_ROW", some "FULL_MATRIX"]))]
      rfl

theorem parse_distances_unknown (data : List (List ℝ)) (ewt : String)
    (fmt : Option String) (nc : Option (List (ℝ × ℝ))) (c : Option String)
    (h : ewt ∉ ["EUC_2D", "FLOOR_2D", "EXACT_2D", "EXPLICIT"]) :
    parse_distances data ewt fmt nc c = Except.error ParseErr.unknownType := by
  simp only [parse_distances]
  rw [if_neg h]

/-! ### Claim theorems -/

/-- C7: any `edge_weight_type` outside {EUC_2D, FLOOR_2D, EXACT_2D, EXPLICIT}
makes `parse_distances` fail with the type-dispatch `UnsupportedSpec` error
(`ParseErr.unknownType`), regardless of the other arguments; and for
`EXPLICIT` with an `edge_weight_format` outside {LOWER_ROW, FULL_MATRIX} it
fails with the format-dispatch `UnsupportedSpec` error
(`ParseErr.unknownFormat`). -/
theorem C7_unsupported_spec (data : List (List ℝ)) (ewt : String) (fmt : Option String)
    (nc : Option (List (ℝ × ℝ))) (c : Option String) :
    (ewt ∉ ["EUC_2D", "FLOOR_2D", "EXACT_2D", "EXPLICIT"] →
      parse_distances data ewt fmt nc c = Except.error ParseErr.unknownType) ∧
    (fmt ≠ some "LOWER_ROW" → fmt ≠ some "FULL_MATRIX" →
      parse_distances data "EXPLICIT" fmt nc c = Except.error ParseErr.unknownFormat) := by
  constructor
  · exact fun h => parse_distances_unknown data ewt fmt nc c h
  · intro h1 h2
    rw [parse_distances_explicit, if_neg h1, if_neg h2]

theorem C7_unsupported_spec_witness :
    parse_distances [] "BOGUS" none none none = Except.error ParseErr.unknownType ∧
    parse_distances [] "EXPLICIT" (some "BOGUS") none none =
      Except.error ParseErr.unknownFormat :=
  ⟨(C7_unsupported_spec [] "BOGUS" none none none).1 (by decide),
   (C7_unsupported_spec [] "EXPLICIT" (some "BOGUS") none none).2 (by decide) (by decide)⟩

/-- C8: for each of the three `2D` edge weight types, a missing `node_coord`
makes `parse_distances` fail with the `MissingInput` error
(`ParseErr.missingCoords`); the error is returned before any distance is
computed. -/
theorem C8_missing_coords (data : List (List ℝ)) (ewt : String) (fmt : Option String)
    (c : Option String) (h : ewt ∈ ["EUC_2D", "FLOOR_2D", "EXACT_2D"]) :
    parse_distances data ewt fmt none c = Except.error ParseErr.missingCoords := by
  simp only [List.mem_cons, List.not_mem_nil, or_false] at h
  rcases h with rfl | rfl | rfl
  · exact parse_distances_euc data fmt none c
  · exact parse_distances_floor data fmt none c
  · exact parse_distances_exact data fmt none c

theorem C8_missing_coords_witness :
    parse_distances [] "EUC_2D" none none none = Except.error ParseErr.missingCoords :=
  C8_missing_coords [] "EUC_2D" none none (by decide)

/-- C9: with `EXPLICIT` / `FULL_MATRIX` the payload is returned unchanged,
with no computation on the entries; in particular for the concrete matrix
`[[0,2,3],[2,0,4],[3,4,0]]`. -/
theorem C9_full_matrix_passthrough :
    (∀ (data : List (List ℝ)) (nc : Option (List (ℝ × ℝ))) (c : Option String),
      parse_distances data "EXPLICIT" (some "FULL_MATRIX") nc c = Except.ok data) ∧
    parse_distances [[0, 2, 3], [2, 0, 4], [3, 4, 0]] "EXPLICIT" (some "FULL_MATRIX")
        none none = Except.ok [[0, 2, 3], [2, 0, 4], [3, 4, 0]] := by
  constructor
  · intro data nc c
    rw [parse_distances_explicit, if_neg (by decide), if_pos rfl]
  · rfl

/-- C10: a flattened length that is not a triangular number need not raise:
for `L = 4` the derived dimension is `m = int(sqrt(8)) + 1 = 3`, and since
`m * (m - 1) / 2 = 3 ≤ 4` the expansion silently uses only the first three
flattened values and discards the trailing one (replacing the fourth value by
`99` leaves the result unchanged). -/
theorem C10_silent_truncation :
    is_triangular_number 4 = false ∧
    floorSqrt (2 * 4) + 1 = 3 ∧
    3 * (3 - 1) / 2 ≤ 4 ∧
    from_eilon ([[1, 2, 3, 4]] : List (List ℝ)) = some [[0, 1, 2], [1, 0, 3], [2, 3, 0]] ∧
    from_eilon ([[1, 2, 3, 99]] : List (List ℝ)) = from_eilon [[1, 2, 3, 4]] :=
  ⟨by decide, by decide, by decide, rfl, rfl⟩

/-- C5: `FLOOR_2D` returns the elementwise floor of the raw pairwise
Euclidean matrix, and `EXACT_2D` returns the raw matrix multiplied by 1000
and rounded to the nearest integer (`npRound`, round half to even, matching
`np.round`). -/
theorem C5_floor_exact (data : List (List ℝ)) (fmt : Option String)
    (coords : List (ℝ × ℝ)) (c : Option String) :
    parse_distances data "FLOOR_2D" fmt (some coords) c =
      Except.ok (matElt (fun x => ((⌊x⌋ : ℤ) : ℝ)) (pairwise_euclidean coords)) ∧
    parse_distances data "EXACT_2D" fmt (some coords) c =
      Except.ok (matElt (fun x => ((npRound (x * 1000) : ℤ) : ℝ))
        (pairwise_euclidean coords)) :=
  ⟨parse_distances_floor data fmt (some coords) c,
   parse_distances_exact data fmt (some coords) c⟩

/-- C1, counterexample: with `EXPLICIT` / `FULL_MATRIX` the payload is passed
through unchanged, so an asymmetric payload yields an accepted result that is
not symmetric: the claim that every returned matrix satisfies
`M[i][j] = M[j][i]` is false. -/
theorem C1_full_matrix_counterexample :
    parse_distances [[0, 1], [2, 0]] "EXPLICIT" (some "FULL_MATRIX") none none =
      Except.ok [[0, 1], [2, 0]] ∧
    getM ([[0, 1], [2, 0]] : List (List ℝ)) 0 1 = 1 ∧
    getM ([[0, 1], [2, 0]] : List (List ℝ)) 1 0 = 2 ∧
    getM ([[0, 1], [2, 0]] : List (List ℝ)) 0 1 ≠
      getM ([[0, 1], [2, 0]] : List (List ℝ)) 1 0 := by
  refine ⟨rfl, rfl, rfl, ?_⟩
  show (1 : ℝ) ≠ 2
  norm_num

/-- C2, counterexample: a compact payload of flattened length 4 (not a
triangular number) reaches `from_eilon` through the Eilon comment and is
accepted without any error: no `MalformedInput` failure and no
`is_triangular_number` validation happens. -/
theorem C2_no_validation_counterexample :
    ([[1, 2, 3, 4]] : List (List ℝ)).flatten.length = 4 ∧
    is_triangular_number 4 = false ∧
    parse_distances [[1, 2, 3, 4]] "EXPLICIT" (some "LOWER_ROW") none (some "Eilon 1969") =
      Except.ok [[0, 1, 2], [1, 0, 3], [2, 3, 0]] :=
  ⟨rfl, by decide, rfl⟩

/-- C2, amended: on the Eilon path the derived dimension
`n = int(sqrt(2L)) + 1` is never validated by `is_triangular_number` and no
`MalformedInput` error exists.  Whenever the number of pairs
`(combinations2 n).length = n(n-1)/2` fits within the flattened length `L`,
the expansion succeeds and returns an `n`-by-`n` matrix (even for
non-triangular `L`, silently ignoring trailing data); only when `n(n-1)/2`
exceeds `L` does it fail, with an `IndexError`, not a `MalformedInput`. -/
theorem C2_eilon_unvalidated (ew : List (List ℝ)) (c : String)
    (hc : containsSubstr c "Eilon" = true) :
    ((combinations2 (floorSqrt (2 * ew.flatten.length) + 1)).length ≤
        ew.flatten.length →
      ∃ M, parse_distances ew "EXPLICIT" (some "LOWER_ROW") none (some c) =
          Except.ok M ∧
        M.length = floorSqrt (2 * ew.flatten.length) + 1) ∧
    (ew.flatten.length <
        (combinations2 (floorSqrt (2 * ew.flatten.length) + 1)).length →
      parse_distances ew "EXPLICIT" (some "LOWER_ROW") none (some c) =
        Except.error ParseErr.indexError) := by
  have hdisp := parse_distances_explicit ew (some "LOWER_ROW") none (some c)
  rw [if_pos rfl] at hdisp
  have hEilon : isEilonComment (some c) = true := hc
  simp only [hEilon, if_true] at hdisp
  constructor
  · intro hle
    obtain ⟨M, hM, -⟩ := from_eilon_some ew hle
    refine ⟨M, ?_, (from_eilon_invariants hM).1⟩
    rw [hdisp, hM]
  · intro hlt
    rw [hdisp, from_eilon_none ew hlt]

theorem C2_eilon_unvalidated_witness :
    ∃ M, parse_distances [[1, 2, 3, 4]] "EXPLICIT" (some "LOWER_ROW") none
        (some "Eilon") = Except.ok M ∧
      M.length = floorSqrt (2 * ([[1, 2, 3, 4]] : List (List ℝ)).flatten.length) + 1 :=
  (C2_eilon_unvalidated [[1, 2, 3, 4]] "Eilon" (by decide)).1 (by decide)

/-- C3: for a well-shaped ragged lower-triangular payload (row `k`, 1-indexed,
has `k` entries), `from_lower_row` succeeds — and is what
`EXPLICIT`/`LOWER_ROW` without an Eilon comment returns — with an
`(n, n)`-matrix, `n = len(triangular) + 1`, in which `M[i][j]` (for `j < i`)
is `triangular[i-1][j]`, mirrored into `M[j][i]`, with zero diagonal; in
particular `[[1],[2,3]]` expands so that `M[1][0] = 1`, `M[2][0] = 2`,
`M[2][1] = 3`. -/
theorem C3_lower_row_expansion (t : List (List ℝ))
    (hshape : ∀ m, m < t.length → (t.getD m []).length = m + 1) :
    (∃ M, from_lower_row t = some M ∧
      (∀ nc, parse_distances t "EXPLICIT" (some "LOWER_ROW") nc none = Except.ok M) ∧
      M.length = t.length + 1 ∧ (∀ r ∈ M, r.length = t.length + 1) ∧
      (∀ i j, j < i → i < t.length + 1 →
        getM M i j = (t.getD (i - 1) []).getD j 0 ∧
        getM M j i = (t.getD (i - 1) []).getD j 0) ∧
      (∀ i, getM M i i = 0)) ∧
    from_lower_row ([[1], [2, 3]] : List (List ℝ)) =
      some [[0, 1, 2], [1, 0, 3], [2, 3, 0]] := by
  constructor
  · obtain ⟨M, hM, hentries⟩ :=
      from_lower_row_some t (fun m hm => le_of_eq (hshape m hm).symm)
    obtain inv := from_lower_row_invariants hM
    refine ⟨M, hM, ?_, inv.1, inv.2.1, hentries, inv.2.2.2⟩
    intro nc
    rw [parse_distances_explicit, if_pos rfl,
        if_neg (by decide : ¬ (isEilonComment none = true)), hM]
  · rfl

theorem C3_lower_row_expansion_witness :
    from_lower_row ([[1], [2, 3]] : List (List ℝ)) =
      some [[0, 1, 2], [1, 0, 3], [2, 3, 0]] :=
  (C3_lower_row_expansion [[1], [2, 3]] (by decide)).2

/-- C4: `EUC_2D` returns exactly `pairwise_euclidean`, whose entry `(i, j)`
for `i ≠ j` (stated for `i < j`, with the mirrored entry equal) is the
Euclidean norm of `coords[i] - coords[j]`, with zero diagonal; in particular
coordinates `[[0,0],[3,4]]` give `M[0][1] = 5`. -/
theorem C4_euclidean (data : List (List ℝ)) (fmt : Option String) (c : Option String)
    (coords : List (ℝ × ℝ)) :
    parse_distances data "EUC_2D" fmt (some coords) c =
      Except.ok (pairwise_euclidean coords) ∧
    (∀ i j, i < j → j < coords.length →
      getM (pairwise_euclidean coords) i j
          = norm2 (sub2 (coords.getD i (0, 0)) (coords.getD j (0, 0))) ∧
      getM (pairwise_euclidean coords) j i
          = norm2 (sub2 (coords.getD i (0, 0)) (coords.getD j (0, 0)))) ∧
    (∀ i, getM (pairwise_euclidean coords) i i = 0) ∧
    getM (pairwise_euclidean [((0 : ℝ), (0 : ℝ)), ((3 : ℝ), (4 : ℝ))]) 0 1 = 5 := by
  refine ⟨parse_distances_euc data fmt (some coords) c,
    fun i j hij hj => pairwise_euclidean_entry coords hij hj,
    pairwise_euclidean_diag coords, ?_⟩
  have h := (@pairwise_euclidean_entry [((0 : ℝ), (0 : ℝ)), ((3 : ℝ), (4 : ℝ))] 0 1
    (by norm_num) (by norm_num)).1
  rw [h]
  show norm2 (sub2 ((0 : ℝ), (0 : ℝ)) ((3 : ℝ), (4 : ℝ))) = 5
  simp only [norm2, sub2]
  rw [show ((0 : ℝ) - 3) ^ 2 + ((0 : ℝ) - 4) ^ 2 = 5 ^ 2 by norm_num]
  exact Real.sqrt_sq (by norm_num)

theorem C4_euclidean_witness :
    getM (pairwise_euclidean [((0 : ℝ), (0 : ℝ)), ((3 : ℝ), (4 : ℝ))]) 0 1
        = norm2 (sub2 (([((0 : ℝ), (0 : ℝ)), ((3 : ℝ), (4 : ℝ))]).getD 0 (0, 0))
            (([((0 : ℝ), (0 : ℝ)), ((3 : ℝ), (4 : ℝ))]).getD 1 (0, 0))) ∧
    getM (pairwise_euclidean [((0 : ℝ), (0 : ℝ)), ((3 : ℝ), (4 : ℝ))]) 0 1 = 5 :=
  ⟨((C4_euclidean [] none none [((0 : ℝ), (0 : ℝ)), ((3 : ℝ), (4 : ℝ))]).2.1 0 1
      (by norm_num) (by norm_num)).1,
   (C4_euclidean [] none none [((0 : ℝ), (0 : ℝ)), ((3 : ℝ), (4 : ℝ))]).2.2.2⟩

/-- C6: `combinations2 n` is strictly sorted in lexicographic `(i, j)` order,
and `from_eilon` assigns the `k`-th row-major-flattened value to the `k`-th
pair in that order, mirrored into both halves; and on the identical raw data
`[[1],[2,3],[4,5,6]]` (n = 4) `from_eilon` and `from_lower_row` produce
different matrices. -/
theorem C6_eilon_lex_order :
    (∀ n : Nat, (combinations2 n).Pairwise
      (fun a b => a.1 < b.1 ∨ (a.1 = b.1 ∧ a.2 < b.2))) ∧
    (∀ (ew M : List (List ℝ)), from_eilon ew = some M →
      ∀ k (hk : k < (combinations2 (floorSqrt (2 * ew.flatten.length) + 1)).length),
        getM M ((combinations2 (floorSqrt (2 * ew.flatten.length) + 1)).get ⟨k, hk⟩).1
             ((combinations2 (floorSqrt (2 * ew.flatten.length) + 1)).get ⟨k, hk⟩).2
          = ew.flatten.getD k 0 ∧
        getM M ((combinations2 (floorSqrt (2 * ew.flatten.length) + 1)).get ⟨k, hk⟩).2
             ((combinations2 (floorSqrt (2 * ew.flatten.length) + 1)).get ⟨k, hk⟩).1
          = ew.flatten.getD k 0) ∧
    from_eilon ([[1], [2, 3], [4, 5, 6]] : List (List ℝ)) ≠
      from_lower_row [[1], [2, 3], [4, 5, 6]] := by
  refine ⟨combinations2_pairwise_lex, ?_, ?_⟩
  · intro ew M hok k hk
    have hlen : (combinations2 (floorSqrt (2 * ew.flatten.length) + 1)).length ≤
        ew.flatten.length := by
      by_contra h
      rw [from_eilon_none ew (by omega)] at hok
      exact absurd hok (by simp)
    obtain ⟨M', hM', hent⟩ := from_eilon_some ew hlen
    obtain rfl : M = M' := by
      rw [hok] at hM'
      exact Option.some.inj hM'
    exact hent k hk
  · intro h
    have h2 : ([[0, 1, 2, 3], [1, 0, 4, 5], [2, 4, 0, 6], [3, 5, 6, 0]] : List (List ℝ)) =
        [[0, 1, 2, 4], [1, 0, 3, 5], [2, 3, 0, 6], [4, 5, 6, 0]] := Option.some.inj h
    have h3 : (3 : ℝ) = 4 := congrArg (fun L => getM L 0 3) h2
    norm_num at h3

theorem C6_eilon_lex_order_witness :
    getM ([[0, 1, 2, 3], [1, 0, 4, 5], [2, 4, 0, 6], [3, 5, 6, 0]] : List (List ℝ))
        ((combinations2 (floorSqrt
          (2 * ([[1], [2, 3], [4, 5, 6]] : List (List ℝ)).flatten.length) + 1)).get
            ⟨3, by decide⟩).1
        ((combinations2 (floorSqrt
          (2 * ([[1], [2, 3], [4, 5, 6]] : List (List ℝ)).flatten.length) + 1)).get
            ⟨3, by decide⟩).2
      = ([[1], [2, 3], [4, 5, 6]] : List (List ℝ)).flatten.getD 3 0 :=
  (C6_eilon_lex_order.2.1 [[1], [2, 3], [4, 5, 6]]
    [[0, 1, 2, 3], [1, 0, 4, 5], [2, 4, 0, 6], [3, 5, 6, 0]] rfl 3 (by decide)).1

theorem pairwise_euclidean_length (coords : List (ℝ × ℝ)) :
    (pairwise_euclidean coords).length = coords.length := by
  rw [pairwise_euclidean_def, toMatrix_length]

theorem pairwise_euclidean_row_length (coords : List (ℝ × ℝ)) :
    ∀ r ∈ pairwise_euclidean coords, r.length = coords.length := by
  rw [pairwise_euclidean_def]
  exact toMatrix_row_length _ _

theorem getM_matElt_euclid (f : ℝ → ℝ) (coords : List (ℝ × ℝ)) (i j : Nat)
    (hi : i < coords.length) (hj : j < coords.length) :
    getM (matElt f (pairwise_euclidean coords)) i j
      = f (getM (pairwise_euclidean coords) i j) := by
  have hlen : i < (pairwise_euclidean coords).length := by
    rw [pairwise_euclidean_length]; exact hi
  apply getM_matElt
  · exact hlen
  · rw [getD_eq_get _ [] hlen,
        pairwise_euclidean_row_length coords _ (List.get_mem _ i hlen)]
    exact hj

/-- C1, amended: for every accepted input whose encoding is not
`EXPLICIT`/`FULL_MATRIX`, the returned matrix is square with the dimension
the input implies (`specImpliedDim`), symmetric, and has zero diagonal.  (For
`EXPLICIT`/`FULL_MATRIX` the payload is returned unchanged — see
`C9_full_matrix_passthrough` — so there the invariant holds only if the
payload already satisfies it, refuted by `C1_full_matrix_counterexample`.) -/
theorem C1_invariants (data : List (List ℝ)) (ewt : String) (fmt : Option String)
    (nc : Option (List (ℝ × ℝ))) (c : Option String) (M : List (List ℝ))
    (hok : parse_distances data ewt fmt nc c = Except.ok M)
    (hnotfm : ¬ (ewt = "EXPLICIT" ∧ fmt = some "FULL_MATRIX")) :
    M.length = specImpliedDim data ewt nc c ∧
    (∀ r ∈ M, r.length = M.length) ∧
    (∀ i j, i < M.length → j < M.length → getM M i j = getM M j i) ∧
    (∀ i, getM M i i = 0) := by
  have hmem : ewt ∈ ["EUC_2D", "FLOOR_2D", "EXACT_2D", "EXPLICIT"] := by
    by_contra h
    rw [parse_distances_unknown data ewt fmt nc c h] at hok
    exact absurd hok (by simp)
  simp only [List.mem_cons, List.not_mem_nil, or_false] at hmem
  rcases hmem with rfl | rfl | rfl | rfl
  · -- EUC_2D
    rw [parse_distances_euc] at hok
    cases nc with
    | none => exact absurd hok (by simp)
    | some coords =>
      obtain rfl : pairwise_euclidean coords = M := by simpa using hok
      refine ⟨?_, ?_, ?_, pairwise_euclidean_diag coords⟩
      · rw [pairwise_euclidean_length]
        simp [specImpliedDim, show containsSubstr "EUC_2D" "2D" = true from by decide]
      · intro r hr
        rw [pairwise_euclidean_length]
        exact pairwise_euclidean_row_length coords r hr
      · intro i j hi hj
        rw [pairwise_euclidean_length] at hi hj
        exact pairwise_euclidean_symm coords i j hi hj
  · -- FLOOR_2D
    rw [parse_distances_floor] at hok
    cases nc with
    | none => exact absurd hok (by simp)
    | some coords =>
      obtain rfl : matElt (fun x => ((⌊x⌋ : ℤ) : ℝ)) (pairwise_euclidean coords) = M := by
        simpa using hok
      have hlen : (matElt (fun x => ((⌊x⌋ : ℤ) : ℝ))
          (pairwise_euclidean coords)).length = coords.length := by
        rw [matElt_length, pairwise_euclidean_length]
      refine ⟨?_, ?_, ?_, ?_⟩
      · rw [hlen]
        simp [specImpliedDim, show containsSubstr "FLOOR_2D" "2D" = true from by decide]
      · intro r hr
        rw [hlen]
        simp only [matElt, List.mem_map] at hr
        obtain ⟨r0, hr0, rfl⟩ := hr
        rw [List.length_map]
        exact pairwise_euclidean_row_length coords r0 hr0
      · intro i j hi hj
        rw [hlen] at hi hj
        rw [getM_matElt_euclid _ coords i j hi hj, getM_matElt_euclid _ coords j i hj hi,
            pairwise_euclidean_symm coords i j hi hj]
      · intro i
        by_cases hi : i < coords.length
        · rw [getM_matElt_euclid _ coords i i hi hi, pairwise_euclidean_diag]
          simp
        · exact getM_row_oob _ _ _ (by rw [hlen]; omega)
  · -- EXACT_2D
    rw [parse_distances_exact] at hok
    cases nc with
    | none => exact absurd hok (by simp)
    | some coords =>
      obtain rfl : matElt (fun x => ((npRound (x * 1000) : ℤ) : ℝ))
          (pairwise_euclidean coords) = M := by simpa using hok
      have hlen : (matElt (fun x => ((npRound (x * 1000) : ℤ) : ℝ))
          (pairwise_euclidean coords)).length = coords.length := by
        rw [matElt_length, pairwise_euclidean_length]
      refine ⟨?_, ?_, ?_, ?_⟩
      · rw [hlen]
        simp [specImpliedDim, show containsSubstr "EXACT_2D" "2D" = true from by decide]
      · intro r hr
        rw [hlen]
        simp only [matElt, List.mem_map] at hr
        obtain ⟨r0, hr0, rfl⟩ := hr
        rw [List.length_map]
        exact pairwise_euclidean_row_length coords r0 hr0
      · intro i j hi hj
        rw [hlen] at hi hj
        rw [getM_matElt_euclid _ coords i j hi hj, getM_matElt_euclid _ coords j i hj hi,
            pairwise_euclidean_symm coords i j hi hj]
      · intro i
        by_cases hi : i < coords.length
        · rw [getM_matElt_euclid _ coords i i hi hi, pairwise_euclidean_diag, zero_mul,
              npRound_zero]
          simp
        · exact getM_row_oob _ _ _ (by rw [hlen]; omega)
  · -- EXPLICIT
    have hfm : fmt ≠ some "FULL_MATRIX" := fun h => hnotfm ⟨rfl, h⟩
    rw [parse_distances_explicit] at hok
    by_cases h1 : fmt = some "LOWER_ROW"
    · rw [if_pos h1] at hok
      cases hc : isEilonComment c with
      | false =>
        rw [if_neg (by simp [hc])] at hok
        cases hfl : from_lower_row data with
        | none => rw [hfl] at hok; exact absurd hok (by simp)
        | some N =>
          rw [hfl] at hok
          obtain rfl : N = M := by simpa using hok
          obtain inv := from_lower_row_invariants hfl
          refine ⟨?_, ?_, ?_, inv.2.2.2⟩
          · rw [inv.1]
            simp [specImpliedDim, hc,
              show containsSubstr "EXPLICIT" "2D" = false from by decide]
          · intro r hr; rw [inv.1]; exact inv.2.1 r hr
          · intro i j hi hj; rw [inv.1] at hi hj; exact inv.2.2.1 i j hi hj
      | true =>
        rw [if_pos hc] at hok
        cases hfe : from_eilon data with
        | none => rw [hfe] at hok; exact absurd hok (by simp)
        | some N =>
          rw [hfe] at hok
          obtain rfl : N = M := by simpa using hok
          obtain inv := from_eilon_invariants hfe
          refine ⟨?_, ?_, ?_, inv.2.2.2⟩
          · rw [inv.1]
            simp [specImpliedDim, hc,
              show containsSubstr "EXPLICIT" "2D" = false from by decide]
          · intro r hr; rw [inv.1]; exact inv.2.1 r hr
          · intro i j hi hj; rw [inv.1] at hi hj; exact inv.2.2.1 i j hi hj
    · rw [if_neg h1, if_neg hfm] at hok
      exact absurd hok (by simp)

theorem C1_invariants_witness :
    ([[0, 1, 2], [1, 0, 3], [2, 3, 0]] : List (List ℝ)).length =
      specImpliedDim [[1], [2, 3]] "EXPLICIT" none none ∧
    getM ([[0, 1, 2], [1, 0, 3], [2, 3, 0]] : List (List ℝ)) 1 2 =
      getM ([[0, 1, 2], [1, 0, 3], [2, 3, 0]] : List (List ℝ)) 2 1 ∧
    getM ([[0, 1, 2], [1, 0, 3], [2, 3, 0]] : List (List ℝ)) 0 0 = 0 := by
  have h := C1_invariants [[1], [2, 3]] "EXPLICIT" (some "LOWER_ROW") none none
    [[0, 1, 2], [1, 0, 3], [2, 3, 0]] rfl (by decide)
  exact ⟨h.1, h.2.2.1 1 2 (by decide) (by decide), h.2.2.2 0⟩
